import Mathlib

/-!
Verification development for the Terraform-chatbot change-application engine
(`backend/main.py`).  The pure transformation core is embedded below:

* `apply_diff_to_files` — the unified-diff applier with its per-file hunk
  cursor, reconstructive fallback on cursor overrun (Python `IndexError`),
  and the per-chunk re-segmentation tier.  The third-party `unidiff.PatchSet`
  parser is external library code; its outcomes enter the embedding as the
  `strictParse` / `chunkParses` parameters (a `none` stands for a raised
  parse exception, mirroring the two `except` tiers in the source).
* `replace_or_insert_block` — the named-block locator/patcher with its two
  regex header forms, delimiter depth counting and append-at-end fallback.
* `apply_block_changes`, `parse_block_changes` — the block path.
* `approve` — the `/approve` handler, with the GitHub side effects of the
  "changed" branch reified as an emitted `SinkOp` list.

Python dicts are modelled as insertion-ordered association lists with unique
keys (`updateMap` / `lookupMap`), matching dict update/insert semantics.
-/

/-- Association-list lookup, mirroring Python `dict.get`. -/
def lookupMap {α : Type} : List (String × α) → String → Option α
  | [], _ => none
  | (k, v) :: rest, q => if k = q then some v else lookupMap rest q

/-- Association-list store, mirroring Python `dict[k] = v`: an existing key is
updated in place, a new key is appended at the end. -/
def updateMap {α : Type} : List (String × α) → String → α → List (String × α)
  | [], k, v => [(k, v)]
  | (k', v') :: rest, k, v =>
      if k' = k then (k, v) :: rest else (k', v') :: updateMap rest k v

/-- Association-list key removal, mirroring Python `dict.pop(k, None)`. -/
def removeKey {α : Type} (m : List (String × α)) (k : String) : List (String × α) :=
  m.filter (fun pr => pr.1 != k)

/-- Python whitespace class (`str.strip` / regex `\s`, ASCII part). -/
def isWsChar (c : Char) : Bool :=
  c = ' ' || c = '\t' || c = '\n' || c = '\r' || c = '\x0b' || c = '\x0c'

/-- Line-break characters recognised by Python `str.splitlines` besides
`\n` and `\r` (which get dedicated clauses in `splitLinesAux`). -/
def isOtherBreak (c : Char) : Bool :=
  c = '\x0b' || c = '\x0c' || c = '\x1c' || c = '\x1d' || c = '\x1e' ||
  c = '\x85' || c = '\u2028' || c = '\u2029'

/-- Python `str.splitlines(keepends=True)` on a character list; `acc` holds the
current (reversed) line being accumulated. -/
def splitLinesAux : List Char → List Char → List (List Char)
  | [], acc => if acc = [] then [] else [acc.reverse]
  | '\r' :: '\n' :: rest, acc => (acc.reverse ++ ['\r', '\n']) :: splitLinesAux rest []
  | '\r' :: rest, acc => (acc.reverse ++ ['\r']) :: splitLinesAux rest []
  | '\n' :: rest, acc => (acc.reverse ++ ['\n']) :: splitLinesAux rest []
  | c :: rest, acc =>
      if isOtherBreak c then (acc.reverse ++ [c]) :: splitLinesAux rest []
      else splitLinesAux rest (c :: acc)

/-- `content.splitlines(keepends=True)` from `apply_diff_to_files`. -/
def splitLines (s : String) : List String :=
  (splitLinesAux s.toList []).map String.mk

/-- Python `str.strip()` (ASCII whitespace). -/
def pstrip (s : String) : String :=
  String.mk (((s.toList.dropWhile isWsChar).reverse.dropWhile isWsChar).reverse)

/-- Python `str.rstrip()` on a character list. -/
def rstripL (l : List Char) : List Char :=
  (l.reverse.dropWhile isWsChar).reverse

/-- One snapshot file (`{'path': ..., 'content': ...}`). -/
structure SourceFile where
  path : String
  content : String
deriving DecidableEq

/-- A classified unified-diff line; the payload is `line.value` of `unidiff`
(the text without its `+`/`-`/space marker, trailing newline included). -/
inductive DiffLine where
  | added (value : String)
  | removed (value : String)
  | context (value : String)
deriving DecidableEq

/-- A parsed hunk with its `@@ -s,l +s,l @@` header fields. -/
structure Hunk where
  sourceStart : Nat
  sourceLength : Nat
  targetStart : Nat
  targetLength : Nat
  lines : List DiffLine
deriving DecidableEq

/-- One file's portion of a parsed unified diff (`patched_file`). -/
structure FileDiff where
  path : String
  hunks : List Hunk
deriving DecidableEq

/-- `startswith` on character lists (kernel-reducible form). -/
def startsWithL (pre s : List Char) : Bool := s.take pre.length = pre

/-- Strip the `a/` or `b/` path marker from a diff path (lines 123-125),
`path[2:]` taken character-wise as in Python. -/
def stripAB (p : String) : String :=
  if startsWithL "a/".toList p.toList || startsWithL "b/".toList p.toList then
    String.mk (p.toList.drop 2)
  else p

/-- The value of a line that is added or context, `none` for removed. -/
def lineAddedOrContext : DiffLine → Option String
  | DiffLine.added v => some v
  | DiffLine.context v => some v
  | DiffLine.removed _ => none

/-- New-file creation content: every added/context line value from every hunk,
in order (lines 136-142). -/
def newFileContent (hunks : List Hunk) : String :=
  String.join ((hunks.map (fun h => h.lines.filterMap lineAddedOrContext)).flatten)

/-- The stray-diff-syntax filter of the reconstructive fallback
(lines 176-181): file headers, hunk headers and `File:` markers. -/
def looksLikeDiffMarker (v : String) : Bool :=
  startsWithL "--- a/".toList (pstrip v).toList ||
  startsWithL "+++ b/".toList (pstrip v).toList ||
  startsWithL "@@".toList (pstrip v).toList ||
  startsWithL "File:".toList (pstrip v).toList

/-- Reconstructive fallback content for a file whose hunk application raised
(lines 172-183): all added/context values except stray diff syntax. -/
def fallbackContent (hunks : List Hunk) : String :=
  String.join ((hunks.map (fun h => h.lines.filterMap (fun dl =>
    match lineAddedOrContext dl with
    | some v => if looksLikeDiffMarker v then none else some v
    | none => none))).flatten)

/-- The `while i < hunk.source_start - 1` copy loop (lines 152-154); the
first argument is the number of remaining iterations (`target - i`).
`original[i]` out of range is Python `IndexError`, modelled as `none`. -/
def copyBeforeAux (original : List String) : Nat → Nat → List String →
    Option (List String × Nat)
  | 0, i, acc => some (acc, i)
  | n + 1, i, acc =>
      match original.get? i with
      | some v => copyBeforeAux original n (i + 1) (acc ++ [v])
      | none => none

/-- The per-hunk line walk (lines 156-163): added lines are emitted without
advancing `i`, context lines emit `original[i]` and advance `i` (raising when
`i` is out of range), removed lines advance `i` without emitting. -/
def applyHunkLines (original : List String) : List DiffLine → Nat → List String →
    Option (List String × Nat)
  | [], i, acc => some (acc, i)
  | DiffLine.added v :: rest, i, acc => applyHunkLines original rest i (acc ++ [v])
  | DiffLine.context _ :: rest, i, acc =>
      match original.get? i with
      | some v => applyHunkLines original rest (i + 1) (acc ++ [v])
      | none => none
  | DiffLine.removed _ :: rest, i, acc => applyHunkLines original rest (i + 1) acc

/-- The hunk loop of lines 149-164: for each hunk, copy originals up to
`source_start - 1`, then walk the hunk lines. -/
def applyHunks (original : List String) : List Hunk → Nat → List String →
    Option (List String × Nat)
  | [], i, acc => some (acc, i)
  | h :: rest, i, acc =>
      match copyBeforeAux original (h.sourceStart - 1 - i) i acc with
      | some (acc2, i2) =>
          match applyHunkLines original h.lines i2 acc2 with
          | some (acc3, i3) => applyHunks original rest i3 acc3
          | none => none
      | none => none

/-- Whole-file hunk application (lines 146-166): run the hunks from cursor 0,
then append the remaining original lines; `none` is the caught `IndexError`. -/
def applyFileDiff (original : List String) (hunks : List Hunk) : Option (List String) :=
  match applyHunks original hunks 0 [] with
  | some (acc, i) => some (acc ++ original.drop i)
  | none => none

/-- `file_map = {f['path']: f['content'].splitlines(keepends=True)}` (line 114). -/
def buildFileMap (files : List SourceFile) : List (String × List String) :=
  files.foldl (fun m f => updateMap m f.path (splitLines f.content)) []

/-- `updated_files = {path: ''.join(lines) for path, lines in file_map.items()}`
(line 115). -/
def initialUpdated (files : List SourceFile) : List (String × String) :=
  (buildFileMap files).map (fun pr => (pr.1, String.join pr.2))

/-- The snapshot as a path-to-content mapping (provably equal to
`initialUpdated`, see `initialUpdated_eq_snapshotContents`). -/
def snapshotContents (files : List SourceFile) : List (String × String) :=
  files.foldl (fun m f => updateMap m f.path f.content) []

/-- Processing of one `patched_file` (lines 121-184): strip the `a/`/`b/`
prefix, create the file from added/context values when absent from the
snapshot, otherwise apply the hunks, falling back to reconstruction when the
cursor overruns (`IndexError`). -/
def processFileDiff (fileMap : List (String × List String))
    (updated : List (String × String)) (fd : FileDiff) : List (String × String) :=
  match lookupMap fileMap (stripAB fd.path) with
  | none => updateMap updated (stripAB fd.path) (newFileContent fd.hunks)
  | some original =>
      match applyFileDiff original fd.hunks with
      | some newLines => updateMap updated (stripAB fd.path) (String.join newLines)
      | none => updateMap updated (stripAB fd.path) (fallbackContent fd.hunks)

/-- The loop over all files of one parsed patch. -/
def processPatch (fileMap : List (String × List String))
    (updated : List (String × String)) (fds : List FileDiff) : List (String × String) :=
  fds.foldl (processFileDiff fileMap) updated

/-- One chunk of the re-segmentation tier (lines 192-260): a chunk whose
parse raised is skipped, a parsed chunk is processed like the strict tier. -/
def chunkStep (fileMap : List (String × List String))
    (updated : List (String × String)) (c : Option (List FileDiff)) :
    List (String × String) :=
  match c with
  | none => updated
  | some fds => processPatch fileMap updated fds

/-- `apply_diff_to_files` (lines 102-262).  `strictParse` is the outcome of
`PatchSet` on the whole (preprocessed) diff text — `none` when it raised, in
which case the text is re-split at `--- a/` boundaries and `chunkParses`
lists the per-chunk `PatchSet` outcomes, attempted against the same initial
mapping.  Exceptions inside hunk application are `IndexError`s, caught
per file (`Option` in `applyFileDiff`); the function is total. -/
def apply_diff_to_files (files : List SourceFile)
    (strictParse : Option (List FileDiff))
    (chunkParses : List (Option (List FileDiff))) : List (String × String) :=
  match strictParse with
  | some fds => processPatch (buildFileMap files) (initialUpdated files) fds
  | none => chunkParses.foldl (chunkStep (buildFileMap files)) (initialUpdated files)

/-- Left brace, written via its code point to keep delimiter handling uniform. -/
def lbraceC : Char := Char.ofNat 123

/-- Right brace. -/
def rbraceC : Char := Char.ofNat 125

/-- Left square bracket. -/
def lbrackC : Char := Char.ofNat 91

/-- Right square bracket. -/
def rbrackC : Char := Char.ofNat 93

/-- Does the suffix `s` match `re.escape(block_id) + r'\s*=\s*([\[{])'`
(line 325)?  Returns the matched length and the captured opening delimiter.
The greedy `\s*` runs are maximal whitespace runs (the following literal is
never whitespace, so no backtracking arises). -/
def matchAssignSuffix (bid : List Char) (s : List Char) : Option (Nat × Char) :=
  if s.take bid.length = bid then
    match (s.drop bid.length).dropWhile isWsChar with
    | '=' :: r1 =>
        match r1.dropWhile isWsChar with
        | x :: _ =>
            if x = lbrackC || x = lbraceC then
              some (bid.length + ((s.drop bid.length).takeWhile isWsChar).length
                    + 1 + (r1.takeWhile isWsChar).length + 1, x)
            else none
        | [] => none
    | _ => none
  else none

/-- Does the suffix `s` match `re.escape(block_id) + r'\s*\{'` (line 347)?
Returns the matched length. -/
def matchBlockSuffix (bid : List Char) (s : List Char) : Option Nat :=
  if s.take bid.length = bid then
    match (s.drop bid.length).dropWhile isWsChar with
    | x :: _ =>
        if x = lbraceC then
          some (bid.length + ((s.drop bid.length).takeWhile isWsChar).length + 1)
        else none
    | [] => none
  else none

/-- `re.search` of a `^`-anchored pattern with `re.MULTILINE`: try the matcher
at every line-start position, leftmost first.  `pos` is the absolute index of
the suffix `l`, `atStart` whether that position starts a line. -/
def searchLineStarts {β : Type} (matcher : List Char → Option β) :
    List Char → Nat → Bool → Option (Nat × β)
  | [], pos, atStart => if atStart then (matcher []).map (fun b => (pos, b)) else none
  | c :: rest, pos, atStart =>
      if atStart then
        match matcher (c :: rest) with
        | some b => some (pos, b)
        | none => searchLineStarts matcher rest (pos + 1) (decide (c = '\n'))
      else searchLineStarts matcher rest (pos + 1) (decide (c = '\n'))

/-- `assign_pattern.search(file_content)` (lines 325-326): first line-start
occurrence of the assignment header; yields (start, matched length, opener). -/
def searchAssign (bid : List Char) (l : List Char) : Option (Nat × Nat × Char) :=
  searchLineStarts (matchAssignSuffix bid) l 0 true

/-- `block_header_pattern.search(file_content)` (lines 347-348). -/
def searchBlock (bid : List Char) (l : List Char) : Option (Nat × Nat) :=
  searchLineStarts (matchBlockSuffix bid) l 0 true

/-- The depth-counting scan of lines 332-343 / 351-363: starting at depth
`d` just after the opener, find the absolute index of the closing delimiter
that brings the depth to zero (`i` is the absolute index of the suffix `l`).
`none` when the block never closes. -/
def findClose (o c : Char) : List Char → Nat → Nat → Option Nat
  | [], _, _ => none
  | x :: rest, i, d =>
      if x = o then findClose o c rest (i + 1) (d + 1)
      else if x = c then
        if d = 1 then some i else findClose o c rest (i + 1) (d - 1)
      else findClose o c rest (i + 1) d

/-- `replace_or_insert_block` (lines 320-368): try the assignment header,
then the block header; splice `[start, close+1)` on success, append the new
block after `rstrip` plus a blank line otherwise. -/
def replace_or_insert_block (fileContent blockId newBlock : String) : String :=
  match searchAssign blockId.toList fileContent.toList with
  | some (start, len, ob) =>
      match findClose ob (if ob = lbrackC then rbrackC else rbraceC)
          (fileContent.toList.drop (start + len)) (start + len) 1 with
      | some closeIdx =>
          String.mk (fileContent.toList.take start ++ newBlock.toList ++
            '\n' :: fileContent.toList.drop (closeIdx + 1))
      | none =>
          String.mk (rstripL fileContent.toList ++ '\n' :: '\n' :: newBlock.toList ++ ['\n'])
  | none =>
      match searchBlock blockId.toList fileContent.toList with
      | some (start, len) =>
          match findClose lbraceC rbraceC
              (fileContent.toList.drop (start + len)) (start + len) 1 with
          | some closeIdx =>
              String.mk (fileContent.toList.take start ++ newBlock.toList ++
                '\n' :: fileContent.toList.drop (closeIdx + 1))
          | none =>
              String.mk (rstripL fileContent.toList ++ '\n' :: '\n' :: newBlock.toList ++ ['\n'])
      | none =>
          String.mk (rstripL fileContent.toList ++ '\n' :: '\n' :: newBlock.toList ++ ['\n'])

/-- All block edits of one file applied in order (lines 383-385). -/
def applyBlocksToContent (content : String) (changes : List (String × String)) : String :=
  changes.foldl (fun c pr => replace_or_insert_block c pr.1 pr.2) content

/-- One iteration of the `apply_block_changes` loop (lines 378-386): a
filename absent from the mapping is skipped. -/
def blockFileStep (upd : List (String × String))
    (e : String × List (String × String)) : List (String × String) :=
  match lookupMap upd e.1 with
  | none => upd
  | some content => updateMap upd e.1 (applyBlocksToContent content e.2)

/-- `apply_block_changes` (lines 371-388). -/
def apply_block_changes (files : List SourceFile)
    (blockChanges : List (String × List (String × String))) : List (String × String) :=
  blockChanges.foldl blockFileStep (snapshotContents files)

/-- Everything on the first line (the lazy `(.*?)\n` of the block-change
regex): the characters before the first `\n` and the remainder after it;
`none` when no `\n` exists (the pattern then fails at this position). -/
def takeToNewline : List Char → Option (List Char × List Char)
  | [] => none
  | c :: rest =>
      if c = '\n' then some ([], rest)
      else
        match takeToNewline rest with
        | some (a, r) => some (c :: a, r)
        | none => none

/-- The shortest run of arbitrary characters followed by a triple backtick
fence (the lazy tail of the block-change regex); yields the run and the
remainder after the fence. -/
def takeToFence : List Char → Option (List Char × List Char)
  | [] => none
  | c :: rest =>
      if c :: rest.take 2 = "```".toList then some ([], rest.drop 2)
      else
        match takeToFence rest with
        | some (a, r) => some (c :: a, r)
        | none => none

/-- Match the block-change pattern
`File: (.*?)\nBlock: (.*?)\n` + fenced `hcl` body (line 287) at the start of
`s`; yields the three captures and the remainder after the match. -/
def matchChangeAt (s : List Char) : Option ((String × String × String) × List Char) :=
  if s.take 6 = "File: ".toList then
    match takeToNewline (s.drop 6) with
    | some (fn, r1) =>
        if r1.take 7 = "Block: ".toList then
          match takeToNewline (r1.drop 7) with
          | some (bid, r2) =>
              if r2.take 7 = "```hcl\n".toList then
                match takeToFence (r2.drop 7) with
                | some (content, r3) =>
                    some ((String.mk fn, String.mk bid, String.mk content), r3)
                | none => none
              else none
          | none => none
        else none
    | none => none
  else none

/-- `re.finditer` scan: try the pattern at each position left to right,
resuming after each match.  The fuel argument bounds the scan; every step
consumes at least one character, so `s.length` fuel is exact (see
`findChangesAux_fuel_irrelevant`). -/
def findChangesAux : Nat → List Char → List (String × String × String)
  | 0, _ => []
  | _ + 1, [] => []
  | fuel + 1, c :: rest =>
      match matchChangeAt (c :: rest) with
      | some (t, r) => t :: findChangesAux fuel r
      | none => findChangesAux fuel rest

/-- All non-overlapping matches of the block-change pattern, in order. -/
def findChanges (s : List Char) : List (String × String × String) :=
  findChangesAux s.length s

/-- Record one parsed change under its filename (lines 289-294): append to
the filename's list, creating it on first occurrence. -/
def addChange (m : List (String × List (String × String)))
    (fn : String) (pr : String × String) : List (String × List (String × String)) :=
  match lookupMap m fn with
  | some lst => updateMap m fn (lst ++ [pr])
  | none => m ++ [(fn, [pr])]

/-- `parse_block_changes` (lines 280-295): scan the model response for
`File:`/`Block:`/fenced-`hcl` triples, stripping each capture. -/
def parse_block_changes (response : String) : List (String × List (String × String)) :=
  (findChanges response.toList).foldl
    (fun m t => addChange m (pstrip t.1) (pstrip t.2.1, pstrip t.2.2)) []

/-- A commit-sink interaction of the approve handler (lines 497-517),
reified: branch creation, one file commit, pull-request creation. -/
inductive SinkOp where
  | createBranch (name : String)
  | commitFile (path content : String)
  | createPull (title : String)
deriving DecidableEq

/-- The observable outcome of one `/approve` call: the response message, the
two session tables afterwards, and the emitted commit-sink interactions. -/
structure ApproveOut where
  result : String
  changes : List (String × String)
  contexts : List (String × List SourceFile)
  sinkOps : List SinkOp
deriving DecidableEq

/-- The `/approve` handler (lines 462-526) over the two session tables.
`branchName` and `prUrl` stand for the externally produced branch name
(timestamped) and pull-request URL.  `if not response or not files` is the
Python falsiness test: missing, empty-string response or empty file list. -/
def approve (changes : List (String × String))
    (contexts : List (String × List SourceFile))
    (userId action branchName prUrl : String) : ApproveOut :=
  if action = "approve" then
    match lookupMap changes userId, lookupMap contexts userId with
    | some response, some files =>
        if response = "" ∨ files = [] then
          ⟨"No change or context found for this user. Please generate a change first.",
            changes, contexts, []⟩
        else
          if parse_block_changes response = [] then
            ⟨"No block changes found in model response.", changes, contexts, []⟩
          else
            if files.any (fun f =>
                ((lookupMap (apply_block_changes files (parse_block_changes response))
                  f.path).getD f.content) != f.content) then
              ⟨"Pull request created: " ++ prUrl, changes, contexts,
                SinkOp.createBranch branchName ::
                  (apply_block_changes files (parse_block_changes response)).map
                    (fun pr => SinkOp.commitFile pr.1 pr.2) ++
                  [SinkOp.createPull ("Infra change for user " ++ userId)]⟩
            else
              ⟨"No files were changed. The block changes could not be applied or resulted in no changes.",
                changes, contexts, []⟩
    | none, _ =>
        ⟨"No change or context found for this user. Please generate a change first.",
          changes, contexts, []⟩
    | some _, none =>
        ⟨"No change or context found for this user. Please generate a change first.",
          changes, contexts, []⟩
  else
    ⟨"Request rejected and change discarded.",
      removeKey changes userId, removeKey contexts userId, []⟩

/-- Statement-side balance scan, used to phrase nesting hypotheses: walk a
character list tracking the `o`/`c` delimiter depth from `d`; `none` when
the depth would go below zero, otherwise the final depth.  A list `l` with
`scanBal o c l 0 = some 0` is a balanced block body. -/
def scanBal (o c : Char) : List Char → Nat → Option Nat
  | [], d => some d
  | x :: rest, d =>
      if x = o then scanBal o c rest (d + 1)
      else if x = c then
        if d = 0 then none else scanBal o c rest (d - 1)
      else scanBal o c rest d

/-- Does some parsed file diff of this parse outcome target path `p`? -/
def diffTargets (p : String) (fds : List FileDiff) : Bool :=
  fds.any (fun fd => stripAB fd.path == p)

/-- No file diff of the strict parse (or, when it failed, of any parsed
chunk) targets path `p`: no change could be applied to `p`. -/
def untouchedBy (p : String) (strictParse : Option (List FileDiff))
    (chunkParses : List (Option (List FileDiff))) : Bool :=
  match strictParse with
  | some fds => !(diffTargets p fds)
  | none => chunkParses.all (fun c =>
      match c with
      | none => true
      | some fds => !(diffTargets p fds))

/-- Lookup after a store: the stored key reads the new value, others are
unchanged. -/
theorem lookup_updateMap {α : Type} (m : List (String × α)) (k : String) (v : α)
    (q : String) :
    lookupMap (updateMap m k v) q = if k = q then some v else lookupMap m q := by
  induction m with
  | nil => simp [updateMap, lookupMap]
  | cons hd tl ih =>
      obtain ⟨k', v'⟩ := hd
      by_cases h : k' = k
      · subst h
        by_cases hq : k' = q <;> simp [updateMap, lookupMap, hq]
      · by_cases hq : k' = q
        · subst hq
          have hkq : k ≠ k' := fun e => h e.symm
          simp [updateMap, lookupMap, h, hkq]
        · simp [updateMap, lookupMap, h, hq, ih]

/-- A store at an existing key does not change the key list. -/
theorem keys_updateMap_of_mem {α : Type} (m : List (String × α)) (k : String) (v w : α)
    (h : lookupMap m k = some w) :
    (updateMap m k v).map Prod.fst = m.map Prod.fst := by
  induction m with
  | nil => simp [lookupMap] at h
  | cons hd tl ih =>
      obtain ⟨k', v'⟩ := hd
      by_cases hk : k' = k
      · subst hk
        simp [updateMap]
      · simp [lookupMap, hk] at h
        simp [updateMap, hk, ih h]

/-- The removed key is gone. -/
theorem lookup_removeKey_self {α : Type} (m : List (String × α)) (k : String) :
    lookupMap (removeKey m k) k = none := by
  induction m with
  | nil => simp [removeKey, lookupMap]
  | cons hd tl ih =>
      obtain ⟨k', v'⟩ := hd
      by_cases h : k' = k
      · subst h
        simpa [removeKey, List.filter_cons, bne_self_eq_false] using ih
      · simp only [removeKey, List.filter_cons] at ih ⊢
        simp [bne_iff_ne, h, lookupMap, ih]

/-- Removing one key leaves every other key's binding unchanged. -/
theorem lookup_removeKey_ne {α : Type} (m : List (String × α)) (k q : String)
    (h : q ≠ k) : lookupMap (removeKey m k) q = lookupMap m q := by
  induction m with
  | nil => simp [removeKey, lookupMap]
  | cons hd tl ih =>
      obtain ⟨k', v'⟩ := hd
      by_cases hk : k' = k
      · subst hk
        have hne : k' ≠ q := fun e => h e.symm
        simpa [removeKey, List.filter_cons, bne_self_eq_false, lookupMap, hne] using ih
      · simp only [removeKey, List.filter_cons] at ih ⊢
        simp [bne_iff_ne, hk, lookupMap, ih]

/-- Taking exactly the length of the left part of an append. -/
theorem take_len_append {α : Type} (a b : List α) : (a ++ b).take a.length = a := by
  simp

/-- Dropping exactly the length of the left part of an append. -/
theorem drop_len_append {α : Type} (a b : List α) : (a ++ b).drop a.length = b := by
  simp

/-- String append on explicit character lists. -/
theorem mk_append_mk (a b : List Char) : String.mk a ++ String.mk b = String.mk (a ++ b) :=
  rfl

/-- Rebuilding a string from its character list. -/
theorem mk_toList_eq (s : String) : String.mk s.toList = s := rfl

/-- Joining stringified character lists is stringifying the flattened list. -/
theorem foldl_append_map_mk (xs : List (List Char)) (a : List Char) :
    List.foldl (fun r s => r ++ s) (String.mk a) (xs.map String.mk) =
      String.mk (a ++ xs.flatten) := by
  induction xs generalizing a with
  | nil => simp
  | cons x xs ih => simp [mk_append_mk, ih, List.append_assoc]

/-- `String.join` over `String.mk` is `String.mk` of the flattened list. -/
theorem join_map_mk (xs : List (List Char)) :
    String.join (xs.map String.mk) = String.mk xs.flatten := by
  have h := foldl_append_map_mk xs []
  simpa [String.join] using h

/-- The keepends line split concatenates back to the input. -/
theorem splitLinesAux_flatten : ∀ (l acc : List Char),
    (splitLinesAux l acc).flatten = acc.reverse ++ l := by
  intro l acc
  induction l, acc using splitLinesAux.induct <;> simp_all [splitLinesAux]

/-- `''.join(content.splitlines(keepends=True)) == content`. -/
theorem join_splitLines (s : String) : String.join (splitLines s) = s := by
  simp [splitLines, join_map_mk, splitLinesAux_flatten, mk_toList_eq]

/-- Mapping a value transformation over a store commutes with the store. -/
theorem map_updateMap {α β : Type} (g : α → β) (m : List (String × α)) (k : String)
    (v : α) :
    (updateMap m k v).map (fun pr => (pr.1, g pr.2)) =
      updateMap (m.map (fun pr => (pr.1, g pr.2))) k (g v) := by
  induction m with
  | nil => simp [updateMap]
  | cons hd tl ih =>
      obtain ⟨k', v'⟩ := hd
      by_cases h : k' = k <;> simp [updateMap, h, ih]

/-- Mapping a value transformation through the snapshot fold. -/
theorem map_foldl_updateMap {α β : Type} (g : α → β) (val : SourceFile → α) :
    ∀ (files : List SourceFile) (m0 : List (String × α)),
    (files.foldl (fun m f => updateMap m f.path (val f)) m0).map (fun pr => (pr.1, g pr.2)) =
      files.foldl (fun m f => updateMap m f.path (g (val f)))
        (m0.map (fun pr => (pr.1, g pr.2))) := by
  intro files
  induction files with
  | nil => intro m0; simp
  | cons f fs ih => intro m0; simp [ih, map_updateMap]

/-- Line 115 of the source rebuilds exactly the snapshot's path-to-content
mapping: joining each file's split lines gives back its content. -/
theorem initialUpdated_eq_snapshotContents (files : List SourceFile) :
    initialUpdated files = snapshotContents files := by
  have h := map_foldl_updateMap String.join (fun f => splitLines f.content) files []
  simp only [initialUpdated, buildFileMap, snapshotContents]
  simpa [join_splitLines] using h

/-- Every path stored by the snapshot fold is present in the result. -/
theorem lookup_foldl_update_isSome {α : Type} (val : SourceFile → α) :
    ∀ (files : List SourceFile) (m0 : List (String × α)) (p : String),
    ((∃ f ∈ files, f.path = p) ∨ (lookupMap m0 p).isSome = true) →
    (lookupMap (files.foldl (fun m f => updateMap m f.path (val f)) m0) p).isSome = true := by
  intro files
  induction files with
  | nil =>
      intro m0 p h
      rcases h with h | h
      · simp at h
      · simpa using h
  | cons f fs ih =>
      intro m0 p h
      simp only [List.foldl_cons]
      apply ih
      by_cases hp : f.path = p
      · right
        simp [lookup_updateMap, hp]
      · rcases h with h | h
        · rcases h with ⟨f', hf', he⟩
          rcases List.mem_cons.mp hf' with hf2 | hf2
          · exact absurd (hf2 ▸ he) hp
          · exact Or.inl ⟨f', hf2, he⟩
        · right
          simpa [lookup_updateMap, hp] using h

/-- A path stored by none of the snapshot files is absent from the fold. -/
theorem lookup_foldl_update_none {α : Type} (val : SourceFile → α) :
    ∀ (files : List SourceFile) (m0 : List (String × α)) (p : String),
    lookupMap m0 p = none → (∀ f ∈ files, f.path ≠ p) →
    lookupMap (files.foldl (fun m f => updateMap m f.path (val f)) m0) p = none := by
  intro files
  induction files with
  | nil => intro m0 p h _; simpa using h
  | cons f fs ih =>
      intro m0 p h hall
      simp only [List.foldl_cons]
      apply ih
      · have : f.path ≠ p := hall f (by simp)
        simp [lookup_updateMap, this, h]
      · intro f' hf'
        exact hall f' (by simp [hf'])

/-- Processing one file diff only writes the key named by its stripped path. -/
theorem processFileDiff_lookup_ne (fm : List (String × List String))
    (upd : List (String × String)) (fd : FileDiff) (q : String)
    (h : stripAB fd.path ≠ q) :
    lookupMap (processFileDiff fm upd fd) q = lookupMap upd q := by
  unfold processFileDiff
  cases hl : lookupMap fm (stripAB fd.path) with
  | none => simp [lookup_updateMap, h]
  | some original =>
      cases ha : applyFileDiff original fd.hunks <;> simp [ha, lookup_updateMap, h]

/-- Processing one file diff never removes a key. -/
theorem processFileDiff_isSome (fm : List (String × List String))
    (upd : List (String × String)) (fd : FileDiff) (q : String)
    (h : (lookupMap upd q).isSome = true) :
    (lookupMap (processFileDiff fm upd fd) q).isSome = true := by
  unfold processFileDiff
  cases hl : lookupMap fm (stripAB fd.path) with
  | none =>
      by_cases hq : stripAB fd.path = q <;> simp [lookup_updateMap, hq, h]
  | some original =>
      cases ha : applyFileDiff original fd.hunks <;>
        (by_cases hq : stripAB fd.path = q <;> simp [ha, lookup_updateMap, hq, h])

/-- A whole parsed patch only writes the stripped paths of its file diffs. -/
theorem processPatch_lookup_ne (fm : List (String × List String)) (q : String) :
    ∀ (fds : List FileDiff) (upd : List (String × String)),
    (∀ fd ∈ fds, stripAB fd.path ≠ q) →
    lookupMap (processPatch fm upd fds) q = lookupMap upd q := by
  intro fds
  induction fds with
  | nil => intro upd _; simp [processPatch]
  | cons fd fds ih =>
      intro upd h
      simp only [processPatch, List.foldl_cons]
      rw [show List.foldl (processFileDiff fm) (processFileDiff fm upd fd) fds =
            processPatch fm (processFileDiff fm upd fd) fds from rfl]
      rw [ih (processFileDiff fm upd fd) (fun f hf => h f (by simp [hf]))]
      exact processFileDiff_lookup_ne fm upd fd q (h fd (by simp))

/-- A whole parsed patch never removes a key. -/
theorem processPatch_isSome (fm : List (String × List String)) (q : String) :
    ∀ (fds : List FileDiff) (upd : List (String × String)),
    (lookupMap upd q).isSome = true →
    (lookupMap (processPatch fm upd fds) q).isSome = true := by
  intro fds
  induction fds with
  | nil => intro upd h; simpa [processPatch] using h
  | cons fd fds ih =>
      intro upd h
      simp only [processPatch, List.foldl_cons]
      exact ih (processFileDiff fm upd fd) (processFileDiff_isSome fm upd fd q h)

/-- The re-segmentation fold only writes paths targeted by parsed chunks. -/
theorem chunkFold_lookup_ne (fm : List (String × List String)) (q : String) :
    ∀ (cp : List (Option (List FileDiff))) (upd : List (String × String)),
    (∀ c ∈ cp, ∀ fds, c = some fds → ∀ fd ∈ fds, stripAB fd.path ≠ q) →
    lookupMap (cp.foldl (chunkStep fm) upd) q = lookupMap upd q := by
  intro cp
  induction cp with
  | nil => intro upd _; simp
  | cons c cp ih =>
      intro upd h
      simp only [List.foldl_cons]
      rw [ih (chunkStep fm upd c) (fun c' hc' => h c' (by simp [hc']))]
      cases c with
      | none => simp [chunkStep]
      | some fds =>
          exact processPatch_lookup_ne fm q fds upd
            (fun fd hfd => h (some fds) (by simp) fds rfl fd hfd)

/-- The re-segmentation fold never removes a key. -/
theorem chunkFold_isSome (fm : List (String × List String)) (q : String) :
    ∀ (cp : List (Option (List FileDiff))) (upd : List (String × String)),
    (lookupMap upd q).isSome = true →
    (lookupMap (cp.foldl (chunkStep fm) upd) q).isSome = true := by
  intro cp
  induction cp with
  | nil => intro upd h; simpa using h
  | cons c cp ih =>
      intro upd h
      simp only [List.foldl_cons]
      apply ih
      cases c with
      | none => simpa [chunkStep] using h
      | some fds => exact processPatch_isSome fm q fds upd h

/-- C1: for every snapshot and every parse outcome of the raw diff text
(including the failure outcomes produced by empty, truncated or non-diff
input), `apply_diff_to_files` returns a mapping containing every snapshot
path, and a path targeted by no parsed file diff keeps its original snapshot
content.  Totality (no exception escapes) holds by construction: the only
runtime failure of the source loop, the cursor `IndexError`, is the `none`
case of `applyFileDiff` and is consumed inside `processFileDiff`. -/
theorem claim_C1_result_covers_snapshot (files : List SourceFile)
    (strictParse : Option (List FileDiff))
    (chunkParses : List (Option (List FileDiff))) :
    (∀ f ∈ files,
      (lookupMap (apply_diff_to_files files strictParse chunkParses) f.path).isSome = true)
    ∧ (∀ p, untouchedBy p strictParse chunkParses = true →
        lookupMap (apply_diff_to_files files strictParse chunkParses) p =
          lookupMap (snapshotContents files) p) := by
  constructor
  · intro f hf
    have hinit : (lookupMap (initialUpdated files) f.path).isSome = true := by
      rw [initialUpdated_eq_snapshotContents]
      exact lookup_foldl_update_isSome (fun f => f.content) files [] f.path
        (Or.inl ⟨f, hf, rfl⟩)
    unfold apply_diff_to_files
    cases strictParse with
    | some fds => exact processPatch_isSome (buildFileMap files) f.path fds _ hinit
    | none => exact chunkFold_isSome (buildFileMap files) f.path chunkParses _ hinit
  · intro p hp
    unfold apply_diff_to_files
    cases strictParse with
    | some fds =>
        simp only [untouchedBy, Bool.not_eq_true', diffTargets] at hp
        have hne : ∀ fd ∈ fds, stripAB fd.path ≠ p := by
          intro fd hfd
          have := List.any_eq_false.mp hp fd hfd
          simpa [beq_iff_eq] using this
        rw [processPatch_lookup_ne (buildFileMap files) p fds _ hne,
          initialUpdated_eq_snapshotContents]
    | none =>
        simp only [untouchedBy, List.all_eq_true] at hp
        have hne : ∀ c ∈ chunkParses, ∀ fds, c = some fds →
            ∀ fd ∈ fds, stripAB fd.path ≠ p := by
          intro c hc fds hceq fd hfd
          have := hp c hc
          rw [hceq] at this
          simp only [Bool.not_eq_true', diffTargets] at this
          have := List.any_eq_false.mp this fd hfd
          simpa [beq_iff_eq] using this
        rw [chunkFold_lookup_ne (buildFileMap files) p chunkParses _ hne,
          initialUpdated_eq_snapshotContents]

/-- Witness for C1 at a concrete snapshot whose raw text failed every parse
tier: the path is present and keeps its original content. -/
theorem claim_C1_witness :
    (lookupMap (apply_diff_to_files [⟨"a.tf", "x = 1\n"⟩] none [none]) "a.tf").isSome = true
    ∧ lookupMap (apply_diff_to_files [⟨"a.tf", "x = 1\n"⟩] none [none]) "a.tf" =
        lookupMap (snapshotContents [⟨"a.tf", "x = 1\n"⟩]) "a.tf" :=
  ⟨(claim_C1_result_covers_snapshot [⟨"a.tf", "x = 1\n"⟩] none [none]).1
      ⟨"a.tf", "x = 1\n"⟩ (by simp),
   (claim_C1_result_covers_snapshot [⟨"a.tf", "x = 1\n"⟩] none [none]).2
      "a.tf" (by decide)⟩

/-- C2: the cursor algorithm on the specification's scenario — a one-hunk
diff whose context lines match, replacing line 2 of the three-line file
`a.tf`, produces the original with exactly that line replaced. -/
theorem claim_C2_cursor_scenario :
    lookupMap (apply_diff_to_files [⟨"a.tf", "resource \"x\" \"y\" \x7b\n  size = 1\n\x7d\n"⟩]
      (some [⟨"a/a.tf", [⟨1, 3, 1, 3,
        [DiffLine.context "resource \"x\" \"y\" \x7b\n", DiffLine.removed "  size = 1\n",
         DiffLine.added "  size = 2\n", DiffLine.context "\x7d\n"]⟩]⟩]) [])
      "a.tf" = some "resource \"x\" \"y\" \x7b\n  size = 2\n\x7d\n" := by
  decide

/-- Rebuilding a character list into a string and listing it again. -/
theorem toList_mk (l : List Char) : (String.mk l).toList = l := rfl

/-- Walking a balance-neutral segment: the close scan passes over any
segment whose `scanBal` run from `d` ends at `e` without exhausting the
depth, landing after it with the corresponding depth. -/
theorem scanBal_findClose (o c : Char) (hoc : o ≠ c) :
    ∀ (body : List Char) (d e : Nat), scanBal o c body d = some e →
    ∀ (i : Nat) (tail : List Char),
    findClose o c (body ++ tail) i (d + 1) = findClose o c tail (i + body.length) (e + 1) := by
  intro body
  induction body with
  | nil =>
      intro d e h i tail
      simp only [scanBal, Option.some.injEq] at h
      subst h
      simp
  | cons x rest ih =>
      intro d e h i tail
      by_cases hx : x = o
      · subst hx
        have h' : scanBal x c rest (d + 1) = some e := by
          simpa [scanBal] using h
        simp only [List.cons_append, findClose, if_pos rfl, if_true, List.append_eq]
        rw [ih (d + 1) e h' (i + 1) tail]
        congr 1
        simp [Nat.add_comm, Nat.add_assoc, Nat.add_left_comm]
      · by_cases hc : x = c
        · subst hc
          have hd : d ≠ 0 := by
            intro hd0
            subst hd0
            simp [scanBal, hx] at h
          have h' : scanBal o x rest (d - 1) = some e := by
            simpa [scanBal, hx, hd] using h
          have hdd : d + 1 ≠ 1 := by omega
          simp only [List.cons_append, findClose, if_neg hx, if_pos rfl, if_neg hdd,
            if_true, List.append_eq]
          have : d + 1 - 1 = (d - 1) + 1 := by omega
          rw [this, ih (d - 1) e h' (i + 1) tail]
          congr 1
          simp [Nat.add_comm, Nat.add_assoc, Nat.add_left_comm]
        · have h' : scanBal o c rest d = some e := by
            simpa [scanBal, hx, hc] using h
          simp only [List.cons_append, findClose, if_neg hx, if_neg hc, List.append_eq]
          rw [ih d e h' (i + 1) tail]
          congr 1
          simp [Nat.add_comm, Nat.add_assoc, Nat.add_left_comm]

/-- A balanced body followed by the closing delimiter: the close scan from
depth 1 lands exactly on that closer, skipping every nested delimiter pair
inside the body. -/
theorem scanBal_findClose_closes (o c : Char) (hoc : o ≠ c) (body : List Char)
    (h : scanBal o c body 0 = some 0) (i : Nat) (tail : List Char) :
    findClose o c (body ++ c :: tail) i 1 = some (i + body.length) := by
  rw [scanBal_findClose o c hoc body 0 0 h i (c :: tail)]
  have hco : c ≠ o := Ne.symm hoc
  simp [findClose, hco]

/-- The block-header pattern matches a constructed header suffix
`bid ++ " " ++ opener ++ rest`, with matched length `bid.length + 2`. -/
theorem matchBlockSuffix_at (bid rest : List Char) :
    matchBlockSuffix bid (bid ++ ' ' :: lbraceC :: rest) = some (bid.length + 2) := by
  unfold matchBlockSuffix
  rw [take_len_append, if_pos rfl, drop_len_append]
  have h1 : isWsChar ' ' = true := by decide
  have h2 : isWsChar lbraceC = false := by decide
  simp [List.dropWhile_cons, List.takeWhile_cons, h1, h2]

/-- The assignment-header pattern matches a constructed header suffix
`bid ++ " = " ++ opener ++ rest`, capturing the bracket opener with matched
length `bid.length + 4`. -/
theorem matchAssignSuffix_at (bid rest : List Char) :
    matchAssignSuffix bid (bid ++ ' ' :: '=' :: ' ' :: lbrackC :: rest) =
      some (bid.length + 4, lbrackC) := by
  unfold matchAssignSuffix
  rw [take_len_append, if_pos rfl, drop_len_append]
  have h1 : isWsChar ' ' = true := by decide
  have h2 : isWsChar lbrackC = false := by decide
  have h3 : isWsChar '=' = false := by decide
  simp [List.dropWhile_cons, List.takeWhile_cons, h1, h2, h3]

/-- A matcher success at the very first position is the search result
(position 0 always starts a line). -/
theorem searchLineStarts_zero {β : Type} (matcher : List Char → Option β)
    (l : List Char) (b : β) (h : matcher l = some b) :
    searchLineStarts matcher l 0 true = some (0, b) := by
  cases l with
  | nil => simp [searchLineStarts, h]
  | cons x xs => simp [searchLineStarts, h]

/-- C3: depth counting locates the outer closing delimiter.  For a block
header followed by any balance-neutral body (which may contain nested
brace pairs), the replacement splices exactly from the header start through
the outer closer; in the assignment form with a bracket opener the scan
tracks only brackets, so braces inside the body never change the depth. -/
theorem claim_C3_depth_counting (bid body tail nb : List Char) :
    (searchAssign bid (bid ++ ' ' :: lbraceC :: (body ++ rbraceC :: tail)) = none →
     scanBal lbraceC rbraceC body 0 = some 0 →
     replace_or_insert_block
       (String.mk (bid ++ ' ' :: lbraceC :: (body ++ rbraceC :: tail)))
       (String.mk bid) (String.mk nb) = String.mk (nb ++ '\n' :: tail))
    ∧ (scanBal lbrackC rbrackC body 0 = some 0 →
       replace_or_insert_block
         (String.mk (bid ++ ' ' :: '=' :: ' ' :: lbrackC :: (body ++ rbrackC :: tail)))
         (String.mk bid) (String.mk nb) = String.mk (nb ++ '\n' :: tail)) := by
  constructor
  · intro hs hbal
    unfold replace_or_insert_block
    simp only [toList_mk]
    rw [hs]
    have hm := matchBlockSuffix_at bid (body ++ rbraceC :: tail)
    have hsb : searchBlock bid (bid ++ ' ' :: lbraceC :: (body ++ rbraceC :: tail)) =
        some (0, bid.length + 2) := by
      unfold searchBlock
      exact searchLineStarts_zero _ _ _ hm
    rw [hsb]
    dsimp only
    have hdrop : (bid ++ ' ' :: lbraceC :: (body ++ rbraceC :: tail)).drop
        (0 + (bid.length + 2)) = body ++ rbraceC :: tail := by
      have he : bid ++ ' ' :: lbraceC :: (body ++ rbraceC :: tail) =
          (bid ++ [' ', lbraceC]) ++ (body ++ rbraceC :: tail) := by simp
      have hlen : 0 + (bid.length + 2) = (bid ++ [' ', lbraceC]).length := by simp
      rw [he, hlen, drop_len_append]
    rw [hdrop,
      scanBal_findClose_closes lbraceC rbraceC (by decide) body hbal (0 + (bid.length + 2)) tail]
    dsimp only
    have hdrop2 : (bid ++ ' ' :: lbraceC :: (body ++ rbraceC :: tail)).drop
        (0 + (bid.length + 2) + body.length + 1) = tail := by
      have he : bid ++ ' ' :: lbraceC :: (body ++ rbraceC :: tail) =
          ((bid ++ ' ' :: lbraceC :: body) ++ [rbraceC]) ++ tail := by simp
      have hlen : 0 + (bid.length + 2) + body.length + 1 =
          ((bid ++ ' ' :: lbraceC :: body) ++ [rbraceC]).length := by
        simp
        omega
      rw [he, hlen, drop_len_append]
    simp only [hdrop2, List.take_zero, List.nil_append]
  · intro hbal
    unfold replace_or_insert_block
    simp only [toList_mk]
    have hm := matchAssignSuffix_at bid (body ++ rbrackC :: tail)
    have hsa : searchAssign bid
        (bid ++ ' ' :: '=' :: ' ' :: lbrackC :: (body ++ rbrackC :: tail)) =
        some (0, bid.length + 4, lbrackC) := by
      unfold searchAssign
      exact searchLineStarts_zero _ _ _ hm
    rw [hsa]
    dsimp only
    rw [if_pos (rfl : lbrackC = lbrackC)]
    have hdrop : (bid ++ ' ' :: '=' :: ' ' :: lbrackC :: (body ++ rbrackC :: tail)).drop
        (0 + (bid.length + 4)) = body ++ rbrackC :: tail := by
      have he : bid ++ ' ' :: '=' :: ' ' :: lbrackC :: (body ++ rbrackC :: tail) =
          (bid ++ [' ', '=', ' ', lbrackC]) ++ (body ++ rbrackC :: tail) := by simp
      have hlen : 0 + (bid.length + 4) = (bid ++ [' ', '=', ' ', lbrackC]).length := by simp
      rw [he, hlen, drop_len_append]
    rw [hdrop,
      scanBal_findClose_closes lbrackC rbrackC (by decide) body hbal (0 + (bid.length + 4)) tail]
    dsimp only
    have hdrop2 : (bid ++ ' ' :: '=' :: ' ' :: lbrackC :: (body ++ rbrackC :: tail)).drop
        (0 + (bid.length + 4) + body.length + 1) = tail := by
      have he : bid ++ ' ' :: '=' :: ' ' :: lbrackC :: (body ++ rbrackC :: tail) =
          ((bid ++ ' ' :: '=' :: ' ' :: lbrackC :: body) ++ [rbrackC]) ++ tail := by simp
      have hlen : 0 + (bid.length + 4) + body.length + 1 =
          ((bid ++ ' ' :: '=' :: ' ' :: lbrackC :: body) ++ [rbrackC]).length := by
        simp
        omega
      rw [he, hlen, drop_len_append]
    simp only [hdrop2, List.take_zero, List.nil_append]

/-- Witness for C3: a block whose body holds a nested brace pair splices at
the outer brace, and a bracket assignment whose body holds a brace pair
splices at the bracket closer. -/
theorem claim_C3_witness :
    replace_or_insert_block
      (String.mk ("foo".toList ++ ' ' :: lbraceC ::
        ((' ' :: lbraceC :: rbraceC :: [' ']) ++ rbraceC :: "\ntail".toList)))
      (String.mk "foo".toList) (String.mk "new".toList) =
      String.mk ("new".toList ++ '\n' :: "\ntail".toList)
    ∧ replace_or_insert_block
      (String.mk ("foo".toList ++ ' ' :: '=' :: ' ' :: lbrackC ::
        ((lbraceC :: [rbraceC]) ++ rbrackC :: "\nrest".toList)))
      (String.mk "foo".toList) (String.mk "new".toList) =
      String.mk ("new".toList ++ '\n' :: "\nrest".toList) :=
  ⟨(claim_C3_depth_counting "foo".toList (' ' :: lbraceC :: rbraceC :: [' '])
      "\ntail".toList "new".toList).1 (by decide) (by decide),
   (claim_C3_depth_counting "foo".toList (lbraceC :: [rbraceC])
      "\nrest".toList "new".toList).2 (by decide)⟩

/-- C4 counterexample: a matched block header that never closes, in a file
with trailing whitespace.  The patcher appends the new block, but only after
`rstrip` — the original text (with its trailing spaces) is not preserved as
a prefix of the result, so the result is not the untouched original with the
block appended. -/
theorem claim_C4_counterexample :
    replace_or_insert_block "x \x7b  " "x" "y" = "x \x7b\n\ny\n"
    ∧ startsWithL "x \x7b  ".toList "x \x7b\n\ny\n".toList = false := by
  constructor <;> decide

/-- C4 (amended): when a header matches but its delimiter scan reaches end of
file without closing — in either header form — no partial replacement occurs
and nothing is raised: the result is the original text with trailing
whitespace stripped, a blank line, and the new block appended at end of
file. -/
theorem claim_C4_amended (fc bid nb : String)
    (h : (∃ st len ob, searchAssign bid.toList fc.toList = some (st, len, ob) ∧
            findClose ob (if ob = lbrackC then rbrackC else rbraceC)
              (fc.toList.drop (st + len)) (st + len) 1 = none)
         ∨ (searchAssign bid.toList fc.toList = none ∧
            ∃ st len, searchBlock bid.toList fc.toList = some (st, len) ∧
              findClose lbraceC rbraceC (fc.toList.drop (st + len)) (st + len) 1 = none)) :
    replace_or_insert_block fc bid nb =
      String.mk (rstripL fc.toList ++ '\n' :: '\n' :: nb.toList ++ ['\n']) := by
  unfold replace_or_insert_block
  rcases h with ⟨st, len, ob, h1, h2⟩ | ⟨h0, st, len, h1, h2⟩
  · rw [h1]
    dsimp only
    rw [h2]
  · rw [h0]
    dsimp only
    rw [h1]
    dsimp only
    rw [h2]

/-- Witness for C4 (amended) at the unbalanced-block input of the
counterexample. -/
theorem claim_C4_witness :
    replace_or_insert_block "x \x7b  " "x" "y" =
      String.mk (rstripL "x \x7b  ".toList ++ '\n' :: '\n' :: "y".toList ++ ['\n']) :=
  claim_C4_amended "x \x7b  " "x" "y" (Or.inr ⟨by decide, 0, 3, by decide, by decide⟩)

/-- Every search hit of the line-anchored matchers starts a line: it is at
position `pos` with the line-start flag set, or right after a newline. -/
theorem searchLineStarts_line_start {β : Type} (matcher : List Char → Option β) :
    ∀ (l : List Char) (pos : Nat) (flag : Bool) (st : Nat) (b : β),
    searchLineStarts matcher l pos flag = some (st, b) →
    (flag = true ∧ st = pos) ∨ ∃ k, l.get? k = some '\n' ∧ st = pos + k + 1 := by
  intro l
  induction l with
  | nil =>
      intro pos flag st b h
      cases flag with
      | false => simp [searchLineStarts] at h
      | true =>
          cases hm : matcher [] with
          | none => simp [searchLineStarts, hm] at h
          | some b' =>
              simp [searchLineStarts, hm] at h
              exact Or.inl ⟨rfl, h.1.symm⟩
  | cons c rest ih =>
      intro pos flag st b h
      cases flag with
      | true =>
          cases hm : matcher (c :: rest) with
          | some b' =>
              simp only [searchLineStarts, if_true, hm] at h
              simp at h
              exact Or.inl ⟨rfl, h.1.symm⟩
          | none =>
              simp only [searchLineStarts, if_true, hm] at h
              rcases ih (pos + 1) _ st b h with ⟨hf, hst⟩ | ⟨k, hk, hst⟩
              · right
                exact ⟨0, by simpa using of_decide_eq_true hf, by omega⟩
              · right
                exact ⟨k + 1, by simpa using hk, by omega⟩
      | false =>
          simp only [searchLineStarts, Bool.false_eq_true, if_false] at h
          rcases ih (pos + 1) _ st b h with ⟨hf, hst⟩ | ⟨k, hk, hst⟩
          · right
            exact ⟨0, by simpa using of_decide_eq_true hf, by omega⟩
          · right
            exact ⟨k + 1, by simpa using hk, by omega⟩

/-- C10: both header regexes are line-anchored — any match of the assignment
or block form starts at position 0 or right after a newline, and a file whose
only occurrences of the identifier are indented or mid-line gets no
replacement: the new block is appended at end of file. -/
theorem claim_C10_line_start_only :
    (∀ (fc bid : List Char) (st len : Nat) (ob : Char),
      searchAssign bid fc = some (st, len, ob) →
      st = 0 ∨ ∃ k, fc.get? k = some '\n' ∧ st = k + 1)
    ∧ (∀ (fc bid : List Char) (st len : Nat),
      searchBlock bid fc = some (st, len) →
      st = 0 ∨ ∃ k, fc.get? k = some '\n' ∧ st = k + 1)
    ∧ replace_or_insert_block "x\n  foo = \x7b\n  \x7d\n" "foo" "foo = \x7b\x7d" =
        "x\n  foo = \x7b\n  \x7d\n\nfoo = \x7b\x7d\n" := by
  refine ⟨?_, ?_, by decide⟩
  · intro fc bid st len ob h
    unfold searchAssign at h
    rcases searchLineStarts_line_start (matchAssignSuffix bid) fc 0 true st (len, ob) h with
      ⟨_, hst⟩ | ⟨k, hk, hst⟩
    · exact Or.inl hst
    · exact Or.inr ⟨k, hk, by omega⟩
  · intro fc bid st len h
    unfold searchBlock at h
    rcases searchLineStarts_line_start (matchBlockSuffix bid) fc 0 true st len h with
      ⟨_, hst⟩ | ⟨k, hk, hst⟩
    · exact Or.inl hst
    · exact Or.inr ⟨k, hk, by omega⟩

/-- Witness for C10's anchored-match conjuncts at concrete header hits. -/
theorem claim_C10_witness :
    (0 = 0 ∨ ∃ k, ("foo \x7b\x7d".toList).get? k = some '\n' ∧ 0 = k + 1)
    ∧ (0 = 0 ∨ ∃ k, ("foo = \x7b\x7d".toList).get? k = some '\n' ∧ 0 = k + 1) :=
  ⟨claim_C10_line_start_only.2.1 "foo \x7b\x7d".toList "foo".toList 0 5 (by decide),
   claim_C10_line_start_only.1 "foo = \x7b\x7d".toList "foo".toList 0 7 lbraceC (by decide)⟩

/-- C6: a parsed file diff whose stripped path is absent from the snapshot
takes the creation path — the resulting content for that path is exactly the
concatenation of the added and context line values of every hunk in order,
with no cursor arithmetic and no contribution from removed lines. -/
theorem claim_C6_new_file_creation (files : List SourceFile) (fd : FileDiff)
    (h : ∀ f ∈ files, f.path ≠ stripAB fd.path) :
    lookupMap (apply_diff_to_files files (some [fd]) []) (stripAB fd.path) =
      some (String.join
        ((fd.hunks.map (fun hk => hk.lines.filterMap lineAddedOrContext)).flatten)) := by
  unfold apply_diff_to_files
  simp only [processPatch, List.foldl_cons, List.foldl_nil]
  unfold processFileDiff
  have hnone : lookupMap (buildFileMap files) (stripAB fd.path) = none := by
    unfold buildFileMap
    exact lookup_foldl_update_none (fun f => splitLines f.content) files [] _ (by simp [lookupMap]) h
  rw [hnone]
  simp [lookup_updateMap, newFileContent]

/-- Witness for C6: a diff for the absent path `new.tf` creates it from the
added values, ignoring the removed line. -/
theorem claim_C6_witness :
    lookupMap (apply_diff_to_files [⟨"a.tf", "x\n"⟩]
      (some [⟨"b/new.tf", [⟨0, 0, 1, 2,
        [DiffLine.added "line1\n", DiffLine.removed "gone\n", DiffLine.added "line2\n"]⟩]⟩]) [])
      (stripAB "b/new.tf") = some "line1\nline2\n" := by
  rw [claim_C6_new_file_creation [⟨"a.tf", "x\n"⟩]
    ⟨"b/new.tf", [⟨0, 0, 1, 2,
      [DiffLine.added "line1\n", DiffLine.removed "gone\n", DiffLine.added "line2\n"]⟩]⟩
    (by decide)]
  decide

/-- C7: a cursor overrun (the caught `IndexError`, `applyFileDiff = none`)
makes exactly that file's entry the reconstructive fallback content, and
processing one file's diff never touches any other path of the mapping, so
the other files of the same multi-file diff are unaffected. -/
theorem claim_C7_fallback_isolated (fm : List (String × List String))
    (upd : List (String × String)) (fd : FileDiff) :
    (∀ original, lookupMap fm (stripAB fd.path) = some original →
      applyFileDiff original fd.hunks = none →
      processFileDiff fm upd fd =
        updateMap upd (stripAB fd.path) (fallbackContent fd.hunks))
    ∧ (∀ q, stripAB fd.path ≠ q →
        lookupMap (processFileDiff fm upd fd) q = lookupMap upd q) := by
  constructor
  · intro original h1 h2
    unfold processFileDiff
    rw [h1]
    dsimp only
    rw [h2]
  · intro q hq
    exact processFileDiff_lookup_ne fm upd fd q hq

/-- Witness for C7: a hunk whose `sourceStart` overruns the one-line file
falls back to its added line, and the untargeted path `b.tf` is unchanged. -/
theorem claim_C7_witness :
    processFileDiff [("a.tf", ["a\n"])] [("a.tf", "a\n"), ("b.tf", "b\n")]
        ⟨"a.tf", [⟨3, 1, 3, 1, [DiffLine.added "new\n"]⟩]⟩ =
      updateMap [("a.tf", "a\n"), ("b.tf", "b\n")] (stripAB "a.tf")
        (fallbackContent [⟨3, 1, 3, 1, [DiffLine.added "new\n"]⟩])
    ∧ lookupMap (processFileDiff [("a.tf", ["a\n"])] [("a.tf", "a\n"), ("b.tf", "b\n")]
        ⟨"a.tf", [⟨3, 1, 3, 1, [DiffLine.added "new\n"]⟩]⟩) "b.tf" = some "b\n" :=
  ⟨(claim_C7_fallback_isolated [("a.tf", ["a\n"])] [("a.tf", "a\n"), ("b.tf", "b\n")]
      ⟨"a.tf", [⟨3, 1, 3, 1, [DiffLine.added "new\n"]⟩]⟩).1 ["a\n"] (by decide) (by decide),
   by
    rw [(claim_C7_fallback_isolated [("a.tf", ["a\n"])] [("a.tf", "a\n"), ("b.tf", "b\n")]
      ⟨"a.tf", [⟨3, 1, 3, 1, [DiffLine.added "new\n"]⟩]⟩).2 "b.tf" (by decide)]
    decide⟩

/-- One block-change iteration whose filename is absent is the identity. -/
theorem blockFileStep_absent (upd : List (String × String))
    (e : String × List (String × String)) (h : lookupMap upd e.1 = none) :
    blockFileStep upd e = upd := by
  unfold blockFileStep
  rw [h]

/-- The block-change fold never changes the key list. -/
theorem blockFold_keys : ∀ (bcs : List (String × List (String × String)))
    (m : List (String × String)),
    (bcs.foldl blockFileStep m).map Prod.fst = m.map Prod.fst := by
  intro bcs
  induction bcs with
  | nil => intro m; simp
  | cons e bcs ih =>
      intro m
      simp only [List.foldl_cons]
      rw [ih]
      unfold blockFileStep
      cases h : lookupMap m e.1 with
      | none => rfl
      | some content => exact keys_updateMap_of_mem m e.1 _ content h

/-- The block-change fold leaves untargeted keys' values unchanged. -/
theorem blockFold_lookup_ne : ∀ (bcs : List (String × List (String × String)))
    (m : List (String × String)) (q : String),
    (∀ e ∈ bcs, e.1 ≠ q) →
    lookupMap (bcs.foldl blockFileStep m) q = lookupMap m q := by
  intro bcs
  induction bcs with
  | nil => intro m q _; simp
  | cons e bcs ih =>
      intro m q h
      simp only [List.foldl_cons]
      rw [ih (blockFileStep m e) q (fun e' he' => h e' (by simp [he']))]
      unfold blockFileStep
      cases hl : lookupMap m e.1 with
      | none => rfl
      | some content =>
          dsimp only
          rw [lookup_updateMap]
          simp [h e (by simp)]

/-- C9: `apply_block_changes` returns a mapping with exactly the snapshot's
key set — a block edit naming an absent path is skipped entirely (it creates
no file), and a path named by no edit keeps its snapshot content. -/
theorem claim_C9_block_keys (files : List SourceFile)
    (bcs : List (String × List (String × String))) :
    ((apply_block_changes files bcs).map Prod.fst =
      (snapshotContents files).map Prod.fst)
    ∧ (∀ upd e, lookupMap upd e.1 = none → blockFileStep upd e = upd)
    ∧ (∀ q, (∀ e ∈ bcs, e.1 ≠ q) →
        lookupMap (apply_block_changes files bcs) q =
          lookupMap (snapshotContents files) q) := by
  refine ⟨?_, fun upd e h => blockFileStep_absent upd e h, ?_⟩
  · unfold apply_block_changes
    exact blockFold_keys bcs (snapshotContents files)
  · intro q h
    unfold apply_block_changes
    exact blockFold_lookup_ne bcs (snapshotContents files) q h

/-- Witness for C9: an edit naming the absent path `b.tf` leaves the key set
and the content of `a.tf` untouched. -/
theorem claim_C9_witness :
    ((apply_block_changes [⟨"a.tf", "x = 1\n"⟩] [("b.tf", [("r", "y")])]).map Prod.fst =
      (snapshotContents [⟨"a.tf", "x = 1\n"⟩]).map Prod.fst)
    ∧ lookupMap (apply_block_changes [⟨"a.tf", "x = 1\n"⟩] [("b.tf", [("r", "y")])]) "a.tf" =
        lookupMap (snapshotContents [⟨"a.tf", "x = 1\n"⟩]) "a.tf" :=
  ⟨(claim_C9_block_keys [⟨"a.tf", "x = 1\n"⟩] [("b.tf", [("r", "y")])]).1,
   (claim_C9_block_keys [⟨"a.tf", "x = 1\n"⟩] [("b.tf", [("r", "y")])]).2.2 "a.tf" (by decide)⟩

/-- C5: an approved pending change whose block application leaves every
snapshot file byte-identical makes the approve handler report the no-op
outcome and emit no commit-sink interaction — no branch, no file commit, no
pull request — while both session tables are left as they were. -/
theorem claim_C5_noop_no_sink (changes : List (String × String))
    (contexts : List (String × List SourceFile))
    (userId branchName prUrl response : String) (files : List SourceFile)
    (hresp : lookupMap changes userId = some response)
    (hctx : lookupMap contexts userId = some files)
    (hne : ¬(response = "" ∨ files = []))
    (hbc : ¬parse_block_changes response = [])
    (hnoop : ∀ f ∈ files,
      lookupMap (apply_block_changes files (parse_block_changes response)) f.path =
        some f.content) :
    approve changes contexts userId "approve" branchName prUrl =
      ⟨"No files were changed. The block changes could not be applied or resulted in no changes.",
        changes, contexts, []⟩ := by
  unfold approve
  rw [if_pos rfl, hresp, hctx]
  dsimp only
  rw [if_neg hne, if_neg hbc]
  have hany : (files.any (fun f =>
      ((lookupMap (apply_block_changes files (parse_block_changes response)) f.path).getD
        f.content) != f.content)) = false := by
    rw [List.any_eq_false]
    intro f hf
    rw [hnoop f hf]
    simp
  simp [hany]

/-- Witness for C5: a parsed block change that targets an absent path is
skipped, every file keeps its content, and approval is a no-op with no sink
interaction. -/
theorem claim_C5_witness :
    approve [("u1", "File: b.tf\nBlock: foo\n```hcl\nfoo \x7b\n\x7d\n```")]
        [("u1", [⟨"a.tf", "x = 1\n"⟩])] "u1" "approve" "bn" "pu" =
      ⟨"No files were changed. The block changes could not be applied or resulted in no changes.",
        [("u1", "File: b.tf\nBlock: foo\n```hcl\nfoo \x7b\n\x7d\n```")],
        [("u1", [⟨"a.tf", "x = 1\n"⟩])], []⟩ :=
  claim_C5_noop_no_sink
    [("u1", "File: b.tf\nBlock: foo\n```hcl\nfoo \x7b\n\x7d\n```")]
    [("u1", [⟨"a.tf", "x = 1\n"⟩])] "u1" "bn" "pu"
    "File: b.tf\nBlock: foo\n```hcl\nfoo \x7b\n\x7d\n```" [⟨"a.tf", "x = 1\n"⟩]
    (by decide) (by decide) (by decide) (by decide) (by decide)

/-- C8: any action other than `approve` removes the caller's pending change
and snapshot context, applies nothing, emits no commit-sink interaction, and
leaves every other session key's entries unchanged. -/
theorem claim_C8_reject_discards (changes : List (String × String))
    (contexts : List (String × List SourceFile))
    (userId action branchName prUrl : String) (h : action ≠ "approve") :
    approve changes contexts userId action branchName prUrl =
      ⟨"Request rejected and change discarded.",
        removeKey changes userId, removeKey contexts userId, []⟩
    ∧ lookupMap (removeKey changes userId) userId = none
    ∧ lookupMap (removeKey contexts userId) userId = none
    ∧ (∀ q, q ≠ userId →
        lookupMap (removeKey changes userId) q = lookupMap changes q
        ∧ lookupMap (removeKey contexts userId) q = lookupMap contexts q) := by
  refine ⟨?_, lookup_removeKey_self changes userId, lookup_removeKey_self contexts userId,
    fun q hq => ⟨lookup_removeKey_ne changes userId q hq,
                 lookup_removeKey_ne contexts userId q hq⟩⟩
  unfold approve
  rw [if_neg h]

/-- Witness for C8 at a two-session table: rejecting `u1` discards only its
entries, and `u2` is untouched. -/
theorem claim_C8_witness :
    approve [("u1", "r"), ("u2", "s")] [("u1", [⟨"a.tf", "x"⟩])] "u1" "reject" "bn" "pu" =
      ⟨"Request rejected and change discarded.",
        removeKey [("u1", "r"), ("u2", "s")] "u1",
        removeKey [("u1", [⟨"a.tf", "x"⟩])] "u1", []⟩
    ∧ lookupMap (removeKey [("u1", "r"), ("u2", "s")] "u1") "u2" =
        lookupMap [("u1", "r"), ("u2", "s")] "u2" :=
  ⟨(claim_C8_reject_discards [("u1", "r"), ("u2", "s")] [("u1", [⟨"a.tf", "x"⟩])]
      "u1" "reject" "bn" "pu" (by decide)).1,
   ((claim_C8_reject_discards [("u1", "r"), ("u2", "s")] [("u1", [⟨"a.tf", "x"⟩])]
      "u1" "reject" "bn" "pu" (by decide)).2.2.2 "u2" (by decide)).1⟩

/-- A successful first-line capture consumes at least the newline. -/
theorem takeToNewline_rest_lt : ∀ (s a r : List Char),
    takeToNewline s = some (a, r) → r.length < s.length := by
  intro s
  induction s with
  | nil => intro a r h; simp [takeToNewline] at h
  | cons c rest ih =>
      intro a r h
      by_cases hc : c = '\n'
      · simp [takeToNewline, hc] at h
        rw [← h.2]
        simp
      · cases hrec : takeToNewline rest with
        | none => simp [takeToNewline, hc, hrec] at h
        | some pr =>
            obtain ⟨a', r'⟩ := pr
            simp [takeToNewline, hc, hrec] at h
            have := ih a' r' hrec
            rw [← h.2]
            simp
            omega

/-- A successful fenced-body capture consumes at least the fence. -/
theorem takeToFence_rest_lt : ∀ (s a r : List Char),
    takeToFence s = some (a, r) → r.length < s.length := by
  intro s
  induction s with
  | nil => intro a r h; simp [takeToFence] at h
  | cons c rest ih =>
      intro a r h
      simp only [takeToFence] at h
      split at h
      · simp only [Option.some.injEq, Prod.mk.injEq] at h
        rw [← h.2]
        simp
        omega
      · cases hrec : takeToFence rest with
        | none => rw [hrec] at h; simp at h
        | some pr =>
            obtain ⟨a', r'⟩ := pr
            rw [hrec] at h
            simp only [Option.some.injEq, Prod.mk.injEq] at h
            have := ih a' r' hrec
            rw [← h.2]
            simp
            omega

/-- A successful block-change match consumes at least one character. -/
theorem matchChangeAt_rest_lt (s : List Char) (t : String × String × String)
    (r : List Char) (h : matchChangeAt s = some (t, r)) : r.length < s.length := by
  unfold matchChangeAt at h
  split at h
  · cases h1 : takeToNewline (s.drop 6) with
    | none => rw [h1] at h; simp at h
    | some pr1 =>
        obtain ⟨fn, r1⟩ := pr1
        rw [h1] at h
        dsimp only at h
        split at h
        · cases h2 : takeToNewline (r1.drop 7) with
          | none => rw [h2] at h; simp at h
          | some pr2 =>
              obtain ⟨bid, r2⟩ := pr2
              rw [h2] at h
              dsimp only at h
              split at h
              · cases h3 : takeToFence (r2.drop 7) with
                | none => rw [h3] at h; simp at h
                | some pr3 =>
                    obtain ⟨content, r3⟩ := pr3
                    rw [h3] at h
                    simp only [Option.some.injEq, Prod.mk.injEq] at h
                    have e1 := takeToNewline_rest_lt _ _ _ h1
                    have e2 := takeToNewline_rest_lt _ _ _ h2
                    have e3 := takeToFence_rest_lt _ _ _ h3
                    have d1 : (s.drop 6).length = s.length - 6 := by simp
                    have d2 : (r1.drop 7).length = r1.length - 7 := by simp
                    have d3 : (r2.drop 7).length = r2.length - 7 := by simp
                    rw [← h.2]
                    omega
              · simp at h
        · simp at h
  · simp at h

/-- The scan fuel is irrelevant once it covers the remaining text, so the
`s.length` budget used by `findChanges` computes the full `finditer` scan. -/
theorem findChangesAux_fuel_irrelevant : ∀ (fuel1 fuel2 : Nat) (s : List Char),
    s.length ≤ fuel1 → s.length ≤ fuel2 →
    findChangesAux fuel1 s = findChangesAux fuel2 s := by
  intro fuel1
  induction fuel1 with
  | zero =>
      intro fuel2 s h1 h2
      have : s = [] := by
        cases s with
        | nil => rfl
        | cons c rest => simp at h1
      subst this
      cases fuel2 <;> simp [findChangesAux]
  | succ n ih =>
      intro fuel2 s h1 h2
      cases s with
      | nil => cases fuel2 <;> simp [findChangesAux]
      | cons c rest =>
          have hlen : rest.length + 1 ≤ fuel2 := by simpa using h2
          cases fuel2 with
          | zero => omega
          | succ m =>
              simp only [findChangesAux]
              cases hm : matchChangeAt (c :: rest) with
              | none =>
                  exact ih m rest (by simpa using h1) (by omega)
              | some pr =>
                  obtain ⟨t, r⟩ := pr
                  have hlt := matchChangeAt_rest_lt (c :: rest) t r hm
                  have hr : r.length < rest.length + 1 := by simpa using hlt
                  have h1a : rest.length + 1 ≤ n + 1 := by simpa using h1
                  show t :: findChangesAux n r = t :: findChangesAux m r
                  rw [ih m r (by omega) (by omega)]
